import Mathlib

/-!
Shallow embedding of the `ldsocache` Go package (glibc `ld.so.cache` codec).

Bytes are modelled as natural numbers (a faithful byte holds a value `< 256`);
machine integers (`uint32`, `uint64`, `int64`) are modelled as `Nat`/`Int`
with explicit `% 2^32` / `% 2^64` reductions exactly where the Go code
performs wrapping arithmetic.  The byte-stream state of `bytes.Reader` is
modelled by an explicit position into the buffer list.  Fallible operations
return `Except GoError _`; Go runtime panics (out-of-range slice, negative
`make` length) are modelled by dedicated error constructors so they stay
distinguishable from ordinary error returns.
-/

deriving instance DecidableEq for Except

namespace Ldsocache

/-- Outcomes of the fallible Go operations appearing in the package:
`eof` is `io.EOF`, `unexpectedEOF` is `io.ErrUnexpectedEOF` (short
`io.ReadFull` inside `binary.Read`), `sliceOutOfRange` models the runtime
panic of an out-of-bounds slice expression, and `negMakeLen` models the
runtime panic of `make([]byte, n)` with negative `n`. -/
inductive GoError where
  | eof
  | unexpectedEOF
  | sliceOutOfRange
  | negMakeLen
deriving DecidableEq, Repr

/-- Header record of the cache file (Go struct `LDSORawCacheHeader`).
Fixed-size arrays are lists of byte values; `Unused1 [3]uint32` is a list
of three `uint32` values. -/
structure LDSORawCacheHeader where
  Magic : List Nat
  Version : List Nat
  NumLibs : Nat
  StrTableSize : Nat
  Flags : Nat
  Unused0 : List Nat
  ExtOffset : Nat
  Unused1 : List Nat
deriving DecidableEq, Repr

/-- Raw on-disk library entry (Go struct `LDSORawCacheEntry`). -/
structure LDSORawCacheEntry where
  Flags : Nat
  Key : Nat
  Value : Nat
  OSVersion_Needed : Nat
  HWCap_Needed : Nat
deriving DecidableEq, Repr

/-- Resolved in-memory library entry (Go struct `LDSOCacheEntry`);
the name is the byte string of the library name. -/
structure LDSOCacheEntry where
  Flags : Nat
  Name : List Nat
  OSVersion_Needed : Nat
  HWCap_Needed : Nat
deriving DecidableEq, Repr

/-- Extension area sub-header (Go struct `LDSOCacheExtensionHeader`). -/
structure LDSOCacheExtensionHeader where
  Magic : Nat
  Count : Nat
deriving DecidableEq, Repr

/-- Extension section descriptor (Go struct `LDSOCacheExtensionSectionHeader`). -/
structure LDSOCacheExtensionSectionHeader where
  Tag : Nat
  Flags : Nat
  Offset : Nat
  Size : Nat
deriving DecidableEq, Repr

/-- Extension section with payload (Go struct `LDSOCacheExtensionSection`). -/
structure LDSOCacheExtensionSection where
  Header : LDSOCacheExtensionSectionHeader
  Data : List Nat
deriving DecidableEq, Repr

/-- In-memory cache file model (Go struct `LDSOCacheFile`). -/
structure LDSOCacheFile where
  Header : LDSORawCacheHeader
  Entries : List LDSOCacheEntry
  Extensions : List LDSOCacheExtensionSection
deriving DecidableEq, Repr

/-- Go constant `ldsoExtensionMagic = 0xEAA42174`. -/
def ldsoExtensionMagic : Nat := 0xEAA42174

/-- Wire and `unsafe.Sizeof` size of `LDSORawCacheHeader`:
17 + 3 + 4 + 4 + 1 + 3 + 4 + 12 = 48 bytes. -/
def headerSize : Nat := 48

/-- Wire and `unsafe.Sizeof` size of `LDSORawCacheEntry`:
4 + 4 + 4 + 4 + 8 = 24 bytes. -/
def entrySize : Nat := 24

/-- Little-endian read of a `uint32` from the first four bytes of a list,
as performed by `binary.Read` with `binary.LittleEndian`; each cell is
interpreted as a byte (`% 256`). -/
def readU32 (bs : List Nat) : Nat :=
  bs.getD 0 0 % 256 + 256 * (bs.getD 1 0 % 256) + 65536 * (bs.getD 2 0 % 256)
    + 16777216 * (bs.getD 3 0 % 256)

/-- Little-endian read of a `uint64` from the first eight bytes of a list. -/
def readU64 (bs : List Nat) : Nat :=
  readU32 bs + 4294967296 * readU32 (bs.drop 4)

/-- Little-endian serialization of a `uint32` (wrapping: high bits beyond
2^32 are discarded, as in Go unsigned conversion). -/
def u32le (n : Nat) : List Nat :=
  [n % 256, n / 256 % 256, n / 65536 % 256, n / 16777216 % 256]

/-- Little-endian serialization of a `uint64`. -/
def u64le (n : Nat) : List Nat :=
  u32le (n % 4294967296) ++ u32le (n / 4294967296 % 4294967296)

/-- Model of `io.ReadFull` on a `bytes.Reader` positioned at `pos`
(used by `binary.Read`): succeeds only when all `n` requested bytes are
available; an exhausted reader gives `io.EOF`, a partial read gives
`io.ErrUnexpectedEOF`. -/
def binRead (buf : List Nat) (pos n : Nat) : Except GoError (List Nat) :=
  if n = 0 then .ok []
  else if buf.length ≤ pos then .error .eof
  else if pos + n ≤ buf.length then .ok ((buf.drop pos).take n)
  else .error .unexpectedEOF

/-- Model of a single `bytes.Reader.Read` into a buffer of length `n`
(Go semantics: `io.EOF` only when the reader is exhausted, otherwise copy
up to `n` bytes and leave the rest of the destination zero-filled).
Returns the destination contents together with the number of bytes
actually read. -/
def readerRead (buf : List Nat) (pos n : Nat) : Except GoError (List Nat × Nat) :=
  if buf.length ≤ pos then .error .eof
  else
    let m := min n (buf.length - pos)
    .ok ((buf.drop pos).take m ++ List.replicate (n - m) 0, m)

/-- Decode a 48-byte header record, little endian
(`binary.Read(r, binary.LittleEndian, &header)`). -/
def parseHeader (bs : List Nat) : LDSORawCacheHeader :=
  { Magic := bs.take 17
    Version := (bs.drop 17).take 3
    NumLibs := readU32 (bs.drop 20)
    StrTableSize := readU32 (bs.drop 24)
    Flags := bs.getD 28 0 % 256
    Unused0 := (bs.drop 29).take 3
    ExtOffset := readU32 (bs.drop 32)
    Unused1 := [readU32 (bs.drop 36), readU32 (bs.drop 40), readU32 (bs.drop 44)] }

/-- Decode a 24-byte raw entry record, little endian. -/
def parseRawEntry (bs : List Nat) : LDSORawCacheEntry :=
  { Flags := readU32 bs
    Key := readU32 (bs.drop 4)
    Value := readU32 (bs.drop 8)
    OSVersion_Needed := readU32 (bs.drop 12)
    HWCap_Needed := readU64 (bs.drop 16) }

/-- Decode a 16-byte extension section descriptor, little endian. -/
def parseSectionHeader (bs : List Nat) : LDSOCacheExtensionSectionHeader :=
  { Tag := readU32 bs
    Flags := readU32 (bs.drop 4)
    Offset := readU32 (bs.drop 8)
    Size := readU32 (bs.drop 12) }

/-- The loop in `LoadCacheFile` reading `header.NumLibs` raw entry records
with `binary.Read`, each advancing the reader by 24 bytes. -/
def readRawLibs (buf : List Nat) (pos : Nat) : Nat → Except GoError (List LDSORawCacheEntry)
  | 0 => .ok []
  | k + 1 => do
    let bs ← binRead buf pos entrySize
    let rest ← readRawLibs buf (pos + entrySize) k
    .ok (parseRawEntry bs :: rest)

/-- Go function `extractShlibName`: slice the string table from `startIdx`
(a slice out of range when `startIdx` exceeds the table length, modelled as
the panic error), then cut at the first NUL byte via `bytes.IndexByte`;
when no NUL is present the whole remaining subset is returned. -/
def extractShlibName (strtable : List Nat) (startIdx : Nat) : Except GoError (List Nat) :=
  if strtable.length < startIdx then .error .sliceOutOfRange
  else
    let subset := strtable.drop startIdx
    match subset.findIdx? (fun b => b == 0) with
    | none => .ok subset
    | some terminatorPos => .ok (subset.take terminatorPos)

/-- The table-relative offset `rawlib.Value - uint32(pos)` computed by
`LoadCacheFile` in wrapping `uint32` arithmetic. -/
def relOffset (base : Nat) (r : LDSORawCacheEntry) : Nat :=
  (r.Value % 4294967296 + (4294967296 - base % 4294967296)) % 4294967296

/-- The name resolution loop of `LoadCacheFile`: each raw entry is turned
into a resolved entry whose name is looked up from the string table at
offset `rawlib.Value - uint32(pos)`. -/
def resolveEntries (strtable : List Nat) (base : Nat) :
    List LDSORawCacheEntry → Except GoError (List LDSOCacheEntry)
  | [] => .ok []
  | rl :: rest => do
    let name ← extractShlibName strtable (relOffset base rl)
    let tail ← resolveEntries strtable base rest
    .ok ({ Flags := rl.Flags, Name := name, OSVersion_Needed := rl.OSVersion_Needed,
           HWCap_Needed := rl.HWCap_Needed } :: tail)

/-- Two's-complement bitwise AND on integers, the semantics of Go's `&`
on `int64` (no overflow is possible for the operands this program uses).
An executable counterpart of Mathlib's `Int.land`, certified against it
by `intLand_neg_sixteen` below for the mask this program uses: a negative
operand `-(n+1)` stands for the complement of `n`, so AND with it clears
exactly the bits of `n` (`m - (m &&& n)`). -/
def intLand : Int → Int → Int
  | .ofNat m, .ofNat n => .ofNat (m &&& n)
  | .ofNat m, .negSucc n => .ofNat (m - (m &&& n))
  | .negSucc m, .ofNat n => .ofNat (n - (n &&& m))
  | .negSucc m, .negSucc n => .negSucc (m ||| n)

/-- The aligned extension-area position `(pos & -16) + 8`, computed
identically by `LoadCacheFile` (before seeking to the extension area) and
by `LDSOCacheFile.Write` (to size the padding): two's-complement bitwise
arithmetic on a signed 64-bit stream position. -/
def alignedPosition (pos : Int) : Int :=
  intLand pos (-16) + 8

/-- The loop in `LoadCacheFile` reading `extHeader.Count` section
descriptors with `binary.Read`, each advancing the reader by 16 bytes. -/
def readSectionHeaders (buf : List Nat) (pos : Nat) :
    Nat → Except GoError (List LDSOCacheExtensionSectionHeader)
  | 0 => .ok []
  | k + 1 => do
    let bs ← binRead buf pos 16
    let rest ← readSectionHeaders buf (pos + 16) k
    .ok (parseSectionHeader bs :: rest)

/-- The extension payload loop of `LoadCacheFile`: for each descriptor,
seek to its absolute offset (a `bytes.Reader` seek to a nonnegative
position always succeeds) and fill a `Size`-byte buffer with a single
`Read` call.  Any failure aborts the whole loop. -/
def loadSectionData (buf : List Nat) :
    List LDSOCacheExtensionSectionHeader → Except GoError (List LDSOCacheExtensionSection)
  | [] => .ok []
  | shdr :: rest => do
    let (data, _) ← readerRead buf shdr.Offset shdr.Size
    let tail ← loadSectionData buf rest
    .ok ({ Header := shdr, Data := data } :: tail)

/-- Extension-area decoding of `LoadCacheFile`, starting at the aligned
position.  Every failure (unreadable sub-header, wrong magic, unreadable
descriptor, unreadable payload) degrades to returning no extension
sections at all, never an error. -/
def decodeExtensions (buf : List Nat) (alignedPos : Nat) : List LDSOCacheExtensionSection :=
  match binRead buf alignedPos 8 with
  | .error _ => []
  | .ok ebs =>
    let extHeader : LDSOCacheExtensionHeader :=
      { Magic := readU32 ebs, Count := readU32 (ebs.drop 4) }
    if extHeader.Magic ≠ ldsoExtensionMagic then []
    else
      match readSectionHeaders buf (alignedPos + 8) extHeader.Count with
      | .error _ => []
      | .ok shdrs =>
        match loadSectionData buf shdrs with
        | .error _ => []
        | .ok sections => sections

/-- Go function `LoadCacheFile`, with the filesystem read stripped: the
decoder over the in-memory byte buffer.  Mirrors the source: header,
`NumLibs` raw entries, string-table read (a single `bytes.Reader.Read`
whose byte count is discarded), per-entry name resolution, alignment, and
best-effort extension decoding. -/
def LoadCacheFile (buf : List Nat) : Except GoError LDSOCacheFile := do
  let hbs ← binRead buf 0 headerSize
  let header := parseHeader hbs
  let rawlibs ← readRawLibs buf headerSize header.NumLibs
  let pos := headerSize + entrySize * header.NumLibs
  let (strtable, n) ← readerRead buf pos header.StrTableSize
  let entries ← resolveEntries strtable pos rawlibs
  let pos2 := pos + n
  let alignedPos := (alignedPosition (pos2 : Int)).toNat
  let exts := decodeExtensions buf alignedPos
  .ok { Header := header, Entries := entries, Extensions := exts }

/-- Pad or truncate a byte list to exactly `n` cells, the way a Go
fixed-size array field `[n]byte` always serializes as `n` bytes. -/
def padTrunc (n : Nat) (bs : List Nat) : List Nat :=
  (bs.take n).map (· % 256) ++ List.replicate (n - bs.length) 0

/-- Pad or truncate a list of `uint32` values to exactly `n` values,
for the `[3]uint32` reserved header field. -/
def padTruncU32 (n : Nat) (vs : List Nat) : List Nat :=
  ((vs.take n) ++ List.replicate (n - vs.length) 0).flatMap u32le

/-- Little-endian serialization of `LDSORawCacheHeader`
(Go method `LDSORawCacheHeader.Write`, via `binary.Write`): 48 bytes. -/
def encodeHeader (h : LDSORawCacheHeader) : List Nat :=
  padTrunc 17 h.Magic ++ padTrunc 3 h.Version ++ u32le h.NumLibs ++ u32le h.StrTableSize
    ++ [h.Flags % 256] ++ padTrunc 3 h.Unused0 ++ u32le h.ExtOffset ++ padTruncU32 3 h.Unused1

/-- Little-endian serialization of `LDSORawCacheEntry`: 24 bytes. -/
def encodeRawEntry (e : LDSORawCacheEntry) : List Nat :=
  u32le e.Flags ++ u32le e.Key ++ u32le e.Value ++ u32le e.OSVersion_Needed
    ++ u64le e.HWCap_Needed

/-- Little-endian serialization of `LDSOCacheExtensionSectionHeader`: 16 bytes. -/
def encodeSectionHeader (s : LDSOCacheExtensionSectionHeader) : List Nat :=
  u32le s.Tag ++ u32le s.Flags ++ u32le s.Offset ++ u32le s.Size

/-- Model of Go stdlib `path/filepath` behaviour (Unix rules) used by
`LDSOCacheFile.Write`: split a byte path on the separator byte 47. -/
def splitSegs : List Nat → List (List Nat)
  | [] => [[]]
  | c :: rest =>
    if c = 47 then [] :: splitSegs rest
    else
      match splitSegs rest with
      | s :: ss => (c :: s) :: ss
      | [] => [[c]]

/-- Model of one step of Go stdlib `path.Clean` (Unix rules): empty
segments and `.` are dropped; `..` pops the previous real segment, is
dropped at a root, and is kept at the front of a relative path; any other
segment is appended. -/
def cleanStep (rooted : Bool) (acc : List (List Nat)) (seg : List Nat) : List (List Nat) :=
  if seg = [] then acc
  else if seg = [46] then acc
  else if seg = [46, 46] then
    if acc ≠ [] ∧ acc.getLast? ≠ some [46, 46] then acc.dropLast
    else if rooted then acc
    else acc ++ [[46, 46]]
  else acc ++ [seg]

/-- Model of Go stdlib `path/filepath.Clean` on Unix: the cleaned path is
the processed segments joined by separators, `/`-prefixed when rooted,
and `.` when nothing remains. -/
def pathClean (path : List Nat) : List Nat :=
  if path = [] then [46]
  else
    let rooted := path.head? = some 47
    let segs := (splitSegs path).foldl (cleanStep rooted) []
    let out := if rooted then 47 :: [47].intercalate segs else [47].intercalate segs
    if out = [] then [46] else out

/-- Model of Go stdlib `path/filepath.Dir` on Unix: everything up to and
including the final separator, then cleaned (the empty volume name of
Unix omitted). -/
def filepathDir (path : List Nat) : List Nat :=
  pathClean ((path.reverse.dropWhile (fun c => c ≠ 47)).reverse)

/-- The string-table construction loop of `LDSOCacheFile.Write`: walk the
entries, and for each one record the `uint32` cursor into the growing
table (biased by the header-plus-entry-table size), append `name ++ NUL`,
and emit a raw record whose `Key` adds the length of the name's directory
component in wrapping `uint32` arithmetic. -/
def buildTablesStep (fileEntryTableSize : Nat) (stringTable : List Nat) :
    List LDSOCacheEntry → List LDSORawCacheEntry × List Nat
  | [] => ([], stringTable)
  | lib :: rest =>
    let cursor := (fileEntryTableSize % 4294967296 + stringTable.length % 4294967296) % 4294967296
    let stringTable' := stringTable ++ lib.Name ++ [0]
    let lrcEntry : LDSORawCacheEntry :=
      { Flags := lib.Flags
        Key := (cursor + (filepathDir lib.Name).length % 4294967296) % 4294967296
        Value := cursor
        OSVersion_Needed := lib.OSVersion_Needed
        HWCap_Needed := lib.HWCap_Needed }
    let (es, st) := buildTablesStep fileEntryTableSize stringTable' rest
    (lrcEntry :: es, st)

/-- The raw entries and string table built by `LDSOCacheFile.Write`. -/
def buildTables (fileEntryTableSize : Nat) (entries : List LDSOCacheEntry) :
    List LDSORawCacheEntry × List Nat :=
  buildTablesStep fileEntryTableSize [] entries

/-- The extension area emitted by `LDSOCacheFile.Write`: nothing when the
model holds no sections, otherwise the sub-header, all descriptors in
order, then all payloads in order. -/
def encodeExtensionArea (exts : List LDSOCacheExtensionSection) : List Nat :=
  if exts.length > 0 then
    u32le ldsoExtensionMagic ++ u32le exts.length
      ++ exts.flatMap (fun e => encodeSectionHeader e.Header)
      ++ exts.flatMap (fun e => e.Data)
  else []

/-- Go method `LDSOCacheFile.Write`, with the filesystem write stripped:
the encoder producing the byte buffer.  Header bytes are the model's
header serialized verbatim; raw entries and string table are rebuilt from
the logical entries; `make([]byte, alignedPos - pos)` panics when the
aligned position falls short of the current position (modelled by the
`negMakeLen` error). -/
def LDSOCacheFileWrite (cf : LDSOCacheFile) : Except GoError (List Nat) :=
  let fileEntryTableSize := headerSize + cf.Entries.length * entrySize
  let lrcEntries := (buildTables fileEntryTableSize cf.Entries).1
  let stringTable := (buildTables fileEntryTableSize cf.Entries).2
  let body := encodeHeader cf.Header ++ lrcEntries.flatMap encodeRawEntry ++ stringTable
  let pos := body.length
  let alignedPos := alignedPosition (pos : Int)
  if alignedPos - (pos : Int) < 0 then .error .negMakeLen
  else
    let pad := List.replicate (alignedPos - (pos : Int)).toNat 0
    .ok (body ++ pad ++ encodeExtensionArea cf.Extensions)

end Ldsocache

namespace Ldsocache

/-- Helper characterizing `Nat.ldiff m 15` as clearing the low four bits. -/
theorem ldiff_fifteen (m : Nat) : Nat.ldiff m 15 = m - m % 16 := by
  have hm : m - m % 16 = 2 ^ 4 * (m / 16) + 0 := by
    have := Nat.div_add_mod m 16
    omega
  apply Nat.eq_of_testBit_eq
  intro i
  have h15 : (15 : Nat) = 2 ^ 4 - 1 := by norm_num
  have hsplit : m = 2 ^ 4 * (m / 16) + m % 16 := by
    have := Nat.div_add_mod m 16
    omega
  have hblt : m % 16 < 2 ^ 4 := by
    have := Nat.mod_lt m (show 0 < 16 by norm_num)
    omega
  rw [Nat.testBit_ldiff, hm, h15, Nat.testBit_two_pow_sub_one]
  rw [Nat.testBit_mul_pow_two_add _ (show (0:Nat) < 2 ^ 4 by norm_num)]
  conv_lhs => rw [hsplit, Nat.testBit_mul_pow_two_add _ hblt]
  by_cases hi : i < 4
  · simp [hi]
  · simp [hi]

/-- Helper characterizing `m ||| 15` as setting the low four bits. -/
theorem lor_fifteen (m : Nat) : m ||| 15 = m - m % 16 + 15 := by
  have hm : m - m % 16 + 15 = 2 ^ 4 * (m / 16) + 15 := by
    have := Nat.div_add_mod m 16
    omega
  apply Nat.eq_of_testBit_eq
  intro i
  have h15 : (15 : Nat) = 2 ^ 4 - 1 := by norm_num
  have hsplit : m = 2 ^ 4 * (m / 16) + m % 16 := by
    have := Nat.div_add_mod m 16
    omega
  have hblt : m % 16 < 2 ^ 4 := by
    have := Nat.mod_lt m (show 0 < 16 by norm_num)
    omega
  rw [Nat.testBit_lor, hm, Nat.testBit_mul_pow_two_add _ (show (15:Nat) < 2 ^ 4 by norm_num)]
  conv_lhs => rw [hsplit, Nat.testBit_mul_pow_two_add _ hblt, h15, Nat.testBit_two_pow_sub_one]
  conv_rhs => rw [h15, Nat.testBit_two_pow_sub_one]
  by_cases hi : i < 4
  · simp [hi]
  · simp [hi]

/-- The two's-complement `pos & -16` clears the low four bits: it equals
`pos` minus its nonnegative remainder modulo 16. -/
theorem land_neg_sixteen (pos : Int) : Int.land pos (-16) = pos - pos % 16 := by
  cases pos with
  | ofNat m =>
    have hld : Int.land (Int.ofNat m) (-16) = Int.ofNat (Nat.ldiff m 15) := rfl
    rw [hld, ldiff_fifteen]
    have h2 : m % 16 ≤ m := Nat.mod_le m 16
    simp only [Int.ofNat_eq_coe]
    omega
  | negSucc m =>
    have hld : Int.land (Int.negSucc m) (-16) = Int.negSucc (m ||| 15) := rfl
    rw [hld, lor_fifteen]
    have h2 : m % 16 ≤ m := Nat.mod_le m 16
    simp only [Int.negSucc_eq, Int.ofNat_eq_coe]
    omega

/-- The executable `intLand` agrees with Mathlib's two's-complement
`Int.land` on the mask `-16` used by the alignment formula. -/
theorem intLand_neg_sixteen (pos : Int) : intLand pos (-16) = Int.land pos (-16) := by
  cases pos with
  | ofNat m =>
    have h1 : intLand (Int.ofNat m) (-16) = Int.ofNat (m - (m &&& 15)) := rfl
    have h2 : Int.land (Int.ofNat m) (-16) = Int.ofNat (Nat.ldiff m 15) := rfl
    have h3 : m &&& 15 = m % 16 := by
      have := Nat.and_pow_two_sub_one_eq_mod m 4
      norm_num at this
      exact this
    rw [h1, h2, ldiff_fifteen, h3]
  | negSucc m => rfl

/-- Evaluation form of the alignment formula: round down to a multiple of
16, then add 8. -/
theorem alignedPosition_eval (pos : Int) :
    alignedPosition pos = pos - pos % 16 + 8 := by
  rw [alignedPosition, intLand_neg_sixteen, land_neg_sixteen]

end Ldsocache

namespace Ldsocache

/-- A concrete one-entry well-formed model (name `"libc.so.6"`) used as
the round-trip witness input. -/
def testCF : LDSOCacheFile :=
  { Header := { Magic := [], Version := [], NumLibs := 1, StrTableSize := 10,
                Flags := 0, Unused0 := [], ExtOffset := 0, Unused1 := [] }
    Entries := [{ Flags := 1, Name := [108,105,98,99,46,115,111,46,54], OSVersion_Needed := 2, HWCap_Needed := 3 }]
    Extensions := [] }

/-- A model whose header claims one library but whose entry list is
empty; encode trusts the header, decode then runs out of bytes. -/
def c1cf : LDSOCacheFile :=
  { Header := { Magic := [], Version := [], NumLibs := 1, StrTableSize := 0,
                Flags := 0, Unused0 := [], ExtOffset := 0, Unused1 := [] }
    Entries := [], Extensions := [] }

/-- A 49-byte buffer: zero entries, a header announcing a 4-byte string
table, but only one byte left after the entry table. -/
def c4buf : List Nat := List.replicate 20 0 ++ [0,0,0,0] ++ [4,0,0,0] ++ List.replicate 20 0 ++ [9]

/-- A 48-byte buffer: like `c4buf` but with zero bytes left after the
entry table. -/
def c4buf2 : List Nat := List.replicate 20 0 ++ [0,0,0,0] ++ [4,0,0,0] ++ List.replicate 20 0

/-- The byte string `"/usr/lib/libc.so.6"`. -/
def c5name : List Nat := [47,117,115,114,47,108,105,98,47,108,105,98,99,46,115,111,46,54]

/-- A 74-byte buffer whose single raw entry has `Value = 0`, making the
wrapping table-relative offset land far outside the 2-byte table. -/
def c8buf : List Nat :=
  (List.replicate 20 0 ++ [1,0,0,0] ++ [2,0,0,0] ++ List.replicate 20 0)
  ++ (List.replicate 24 0) ++ [65, 0]

/-- A 100-byte buffer with a valid extension area of two descriptors:
the first descriptor's payload (4 bytes at offset 96) is present, the
second points past the end of the buffer. -/
def c3buf : List Nat :=
  (List.replicate 20 0 ++ [0,0,0,0] ++ [0,0,0,0] ++ List.replicate 20 0)
  ++ List.replicate 8 0
  ++ [0x74,0x21,0xA4,0xEA] ++ [2,0,0,0]
  ++ [0,0,0,0, 0,0,0,0, 96,0,0,0, 4,0,0,0]
  ++ [1,0,0,0, 0,0,0,0, 200,0,0,0, 4,0,0,0]
  ++ [9,9,9,9]

/-- A 64-byte buffer whose aligned extension position holds a wrong
magic value. -/
def c7buf : List Nat :=
  (List.replicate 20 0 ++ [0,0,0,0] ++ [0,0,0,0] ++ List.replicate 20 0)
  ++ List.replicate 8 0 ++ [1,2,3,4] ++ [5,0,0,0]

end Ldsocache

namespace Ldsocache

/-- Length of a serialized `uint32`. -/
theorem u32le_length (n : Nat) : (u32le n).length = 4 := rfl

/-- Length of a serialized `uint64`. -/
theorem u64le_length (n : Nat) : (u64le n).length = 8 := rfl

/-- Padding or truncating always yields the requested length. -/
theorem padTrunc_length (n : Nat) (bs : List Nat) : (padTrunc n bs).length = n := by
  simp [padTrunc]
  omega

/-- A serialized header record is 48 bytes. -/
theorem encodeHeader_length (h : LDSORawCacheHeader) : (encodeHeader h).length = 48 := by
  have h3 : (padTruncU32 3 h.Unused1).length = 12 := by
    unfold padTruncU32
    rcases h.Unused1 with _ | ⟨a, _ | ⟨b, _ | ⟨c, l⟩⟩⟩ <;> simp [u32le]
  simp [encodeHeader, padTrunc_length, u32le_length, h3]

/-- A serialized raw entry record is 24 bytes. -/
theorem encodeRawEntry_length (e : LDSORawCacheEntry) : (encodeRawEntry e).length = 24 := rfl

/-- Reading back a serialized `uint32` recovers the value modulo 2^32,
whatever bytes follow. -/
theorem readU32_u32le (n : Nat) (rest : List Nat) :
    readU32 (u32le n ++ rest) = n % 4294967296 := by
  simp [u32le, readU32, List.getD]
  omega

/-- Reading back a serialized `uint64` recovers the value modulo 2^64,
whatever bytes follow. -/
theorem readU64_u64le (n : Nat) (rest : List Nat) :
    readU64 (u64le n ++ rest) = n % 18446744073709551616 := by
  have hsplit : u64le n ++ rest = u32le (n % 4294967296) ++ (u32le (n / 4294967296 % 4294967296) ++ rest) := by
    simp [u64le]
  rw [readU64, hsplit, readU32_u32le, List.drop_left' (u32le_length _), readU32_u32le]
  omega

end Ldsocache

namespace Ldsocache

/-- Field-wise `uint32`/`uint64` reduction applied by a serialize/parse
round trip of a raw entry record. -/
def reduceRaw (e : LDSORawCacheEntry) : LDSORawCacheEntry :=
  { Flags := e.Flags % 4294967296
    Key := e.Key % 4294967296
    Value := e.Value % 4294967296
    OSVersion_Needed := e.OSVersion_Needed % 4294967296
    HWCap_Needed := e.HWCap_Needed % 18446744073709551616 }

/-- Parsing a serialized raw entry recovers it modulo the field widths. -/
theorem parseRawEntry_encodeRawEntry (e : LDSORawCacheEntry) (rest : List Nat) :
    parseRawEntry (encodeRawEntry e ++ rest) = reduceRaw e := by
  have h0 : encodeRawEntry e ++ rest
      = u32le e.Flags ++ (u32le e.Key ++ (u32le e.Value ++ (u32le e.OSVersion_Needed
        ++ (u64le e.HWCap_Needed ++ rest)))) := by
    simp [encodeRawEntry]
  have d4 : (encodeRawEntry e ++ rest).drop 4
      = u32le e.Key ++ (u32le e.Value ++ (u32le e.OSVersion_Needed
        ++ (u64le e.HWCap_Needed ++ rest))) := by
    rw [h0, List.drop_left' (u32le_length _)]
  have d8 : (encodeRawEntry e ++ rest).drop 8
      = u32le e.Value ++ (u32le e.OSVersion_Needed ++ (u64le e.HWCap_Needed ++ rest)) := by
    rw [show (8 : Nat) = 4 + 4 from rfl, ← List.drop_drop, d4, List.drop_left' (u32le_length _)]
  have d12 : (encodeRawEntry e ++ rest).drop 12
      = u32le e.OSVersion_Needed ++ (u64le e.HWCap_Needed ++ rest) := by
    rw [show (12 : Nat) = 8 + 4 from rfl, ← List.drop_drop, d8, List.drop_left' (u32le_length _)]
  have d16 : (encodeRawEntry e ++ rest).drop 16
      = u64le e.HWCap_Needed ++ rest := by
    rw [show (16 : Nat) = 12 + 4 from rfl, ← List.drop_drop, d12, List.drop_left' (u32le_length _)]
  unfold parseRawEntry reduceRaw
  rw [d4, d8, d12, d16, readU64_u64le, readU32_u32le, readU32_u32le, readU32_u32le]
  rw [h0, readU32_u32le]

/-- A successful raw-entry-table read yields exactly the requested number
of records. -/
theorem readRawLibs_length (buf : List Nat) :
    ∀ (n : Nat) (pos : Nat) (l : List LDSORawCacheEntry),
      readRawLibs buf pos n = .ok l → l.length = n := by
  intro n
  induction n with
  | zero =>
    intro pos l h
    simp [readRawLibs] at h
    simp [← h]
  | succ k ih =>
    intro pos l h
    rw [readRawLibs] at h
    cases hb : binRead buf pos entrySize with
    | error e => rw [hb] at h; simp [Bind.bind, Except.bind] at h
    | ok bs =>
      rw [hb] at h
      simp only [Bind.bind, Except.bind] at h
      cases hr : readRawLibs buf (pos + entrySize) k with
      | error e => rw [hr] at h; simp at h
      | ok rest =>
        rw [hr] at h
        simp only [Except.ok.injEq] at h
        rw [← h]
        simp [ih (pos + entrySize) rest hr]

/-- A successful name-resolution pass yields one resolved entry per raw
record. -/
theorem resolveEntries_length (strtable : List Nat) (base : Nat) :
    ∀ (rs : List LDSORawCacheEntry) (es : List LDSOCacheEntry),
      resolveEntries strtable base rs = .ok es → es.length = rs.length := by
  intro rs
  induction rs with
  | nil =>
    intro es h
    simp [resolveEntries] at h
    simp [← h]
  | cons r rest ih =>
    intro es h
    rw [resolveEntries] at h
    cases hx : extractShlibName strtable (relOffset base r) with
    | error e => rw [hx] at h; simp [Bind.bind, Except.bind] at h
    | ok name =>
      rw [hx] at h
      simp only [Bind.bind, Except.bind] at h
      cases ht : resolveEntries strtable base rest with
      | error e => rw [ht] at h; simp at h
      | ok tail =>
        rw [ht] at h
        simp only [Except.ok.injEq] at h
        rw [← h]
        simp [ih tail ht]

end Ldsocache

namespace Ldsocache

/-- C9: for every byte buffer on which decode succeeds, the length of the
returned entry sequence equals the returned header's `NumLibs` field. -/
theorem decode_entry_count (buf : List Nat) (file : LDSOCacheFile)
    (h : LoadCacheFile buf = .ok file) :
    file.Entries.length = file.Header.NumLibs := by
  rw [LoadCacheFile] at h
  cases h1 : binRead buf 0 headerSize with
  | error e => rw [h1] at h; simp [Bind.bind, Except.bind] at h
  | ok hbs =>
    rw [h1] at h
    simp only [Bind.bind, Except.bind] at h
    cases h2 : readRawLibs buf headerSize (parseHeader hbs).NumLibs with
    | error e => rw [h2] at h; simp at h
    | ok raws =>
      rw [h2] at h
      simp only [] at h
      cases h3 : readerRead buf (headerSize + entrySize * (parseHeader hbs).NumLibs)
          (parseHeader hbs).StrTableSize with
      | error e => rw [h3] at h; simp at h
      | ok stn =>
        rw [h3] at h
        simp only [] at h
        cases h4 : resolveEntries stn.1 (headerSize + entrySize * (parseHeader hbs).NumLibs) raws with
        | error e => rw [h4] at h; simp at h
        | ok entries =>
          rw [h4] at h
          simp only [Except.ok.injEq] at h
          rw [← h]
          have hl1 := readRawLibs_length buf (parseHeader hbs).NumLibs headerSize raws h2
          have hl2 := resolveEntries_length stn.1
            (headerSize + entrySize * (parseHeader hbs).NumLibs) raws entries h4
          simp [hl2, hl1]

/-- Witness for C9: a concrete successfully decoded buffer. -/
theorem decode_entry_count_witness :
    ∃ f, LoadCacheFile (List.replicate 56 0) = .ok f ∧ f.Entries.length = f.Header.NumLibs := by
  have h : LoadCacheFile (List.replicate 56 0) = .ok
      { Header := { Magic := List.replicate 17 0, Version := List.replicate 3 0,
                    NumLibs := 0, StrTableSize := 0, Flags := 0,
                    Unused0 := List.replicate 3 0, ExtOffset := 0, Unused1 := [0, 0, 0] }
        Entries := [], Extensions := [] } := by decide
  exact ⟨_, h, decode_entry_count _ _ h⟩

end Ldsocache

namespace Ldsocache

/-- C2: the aligned extension-area position is computed by decode and
encode through the shared `alignedPosition` (both call sites in
`LoadCacheFile` and `LDSOCacheFile.Write` evaluate the same
`(pos & -16) + 8` expression); the mask arithmetic is exactly
two's-complement bitwise AND (certified against Mathlib's `Int.land`),
equals rounding down to the nearest multiple of 16 plus 8, and is applied
as-is even when the result is below `pos`, as the concrete instances
`pos = 23 ↦ 24` and `pos = 9 ↦ 8 < 9` show. -/
theorem alignment_formula :
    (∀ pos : Int, alignedPosition pos = Int.land pos (-16) + 8
      ∧ alignedPosition pos = pos - pos % 16 + 8
      ∧ 16 ∣ pos - pos % 16 ∧ pos - pos % 16 ≤ pos)
    ∧ alignedPosition 23 = 24 ∧ alignedPosition 9 = 8 ∧ alignedPosition 9 < 9 := by
  refine ⟨fun pos => ⟨?_, ?_, ?_, ?_⟩, by decide, by decide, by decide⟩
  · rw [alignedPosition, intLand_neg_sixteen]
  · exact alignedPosition_eval pos
  · omega
  · omega

end Ldsocache

namespace Ldsocache

/-- Cutting a list at the first NUL (and keeping everything when there is
none) is taking the longest NUL-free prefix. -/
theorem cut_at_first_nul (l : List Nat) :
    (match l.findIdx? (fun b => b == 0) with
      | none => (Except.ok l : Except GoError (List Nat))
      | some p => .ok (l.take p))
    = .ok (l.takeWhile (fun b => !(b == 0))) := by
  induction l with
  | nil => simp
  | cons b rest ih =>
    by_cases hb : b = 0
    · subst hb
      simp [List.findIdx?_cons]
    · rw [List.findIdx?_cons]
      have hpb : ((b == 0) : Bool) = false := by simp [hb]
      rw [if_neg (by simp [hb]), List.findIdx?_succ]
      cases hfi : rest.findIdx? (fun b => b == 0) with
      | none =>
        rw [hfi] at ih
        simp only [Option.map_none] at *
        simp only [Except.ok.injEq] at ih
        simp [List.takeWhile_cons, hpb, ← ih]
      | some p =>
        rw [hfi] at ih
        simp only [Option.map_some] at *
        simp only [Except.ok.injEq] at ih
        simp [List.takeWhile_cons, hpb, List.take_succ_cons, ← ih]

/-- C6: name resolution is lenient.  In bounds, `extractShlibName` returns
the bytes from the table-relative offset up to (excluding) the first NUL,
or all remaining bytes when no NUL follows, never an error; the decode
loop applies it at the wrapping-`uint32` offset `valueOffset - base`; and
the two concrete spec examples: a table `"libc.so.6\x00extra"` resolves at
offset 0 to `"libc.so.6"`, and a table without trailing NUL resolves to
the remaining bytes verbatim. -/
theorem name_resolution_lenient :
    (∀ (strtable : List Nat) (startIdx : Nat), startIdx ≤ strtable.length →
      extractShlibName strtable startIdx
        = .ok ((strtable.drop startIdx).takeWhile (fun b => !(b == 0))))
    ∧ (∀ (strtable : List Nat) (base : Nat) (rl : LDSORawCacheEntry),
      resolveEntries strtable base [rl]
        = (extractShlibName strtable (relOffset base rl)).map
            (fun name => [{ Flags := rl.Flags, Name := name,
                            OSVersion_Needed := rl.OSVersion_Needed,
                            HWCap_Needed := rl.HWCap_Needed }]))
    ∧ extractShlibName ([108,105,98,99,46,115,111,46,54] ++ 0 :: [101,120,116,114,97]) 0
        = .ok [108,105,98,99,46,115,111,46,54]
    ∧ extractShlibName [108,105,98,99,46,115,111,46,54] 2 = .ok [98,99,46,115,111,46,54] := by
  refine ⟨?_, ?_, by decide, by decide⟩
  · intro strtable startIdx h
    unfold extractShlibName
    rw [if_neg (by omega)]
    exact cut_at_first_nul _
  · intro strtable base rl
    rw [resolveEntries]
    cases hx : extractShlibName strtable (relOffset base rl) with
    | error e => simp [hx, Bind.bind, Except.bind, Except.map]
    | ok name =>
      simp only [hx, Bind.bind, Except.bind, Except.map]
      rw [resolveEntries]

/-- Witness for C6: the in-bounds branch applied at a concrete table. -/
theorem name_resolution_lenient_witness :
    extractShlibName [108, 0, 106] 1 = .ok (([108, 0, 106].drop 1).takeWhile (fun b => !(b == 0))) :=
  name_resolution_lenient.1 [108, 0, 106] 1 (by decide)

end Ldsocache

namespace Ldsocache

/-- Assembly of a successful decode from its stage results: when header,
entry table, string-table read and name resolution all succeed, decode
returns them together with whatever the extension stage yields. -/
theorem LoadCacheFile_assemble (buf : List Nat) (hbs : List Nat)
    (raws : List LDSORawCacheEntry) (stn : List Nat × Nat) (entries : List LDSOCacheEntry)
    (h1 : binRead buf 0 headerSize = .ok hbs)
    (h2 : readRawLibs buf headerSize (parseHeader hbs).NumLibs = .ok raws)
    (h3 : readerRead buf (headerSize + entrySize * (parseHeader hbs).NumLibs)
            (parseHeader hbs).StrTableSize = .ok stn)
    (h4 : resolveEntries stn.1 (headerSize + entrySize * (parseHeader hbs).NumLibs) raws
            = .ok entries) :
    LoadCacheFile buf = .ok
      { Header := parseHeader hbs, Entries := entries,
        Extensions := decodeExtensions buf
          ((alignedPosition ((headerSize + entrySize * (parseHeader hbs).NumLibs + stn.2 : Nat) : Int)).toNat) } := by
  rw [LoadCacheFile, h1]
  simp only [Bind.bind, Except.bind]
  rw [h2]
  simp only []
  rw [h3]
  simp only []
  rw [h4]

end Ldsocache

namespace Ldsocache

/-- When the extension sub-header is unreadable or carries the wrong
magic, the extension stage yields no sections. -/
theorem decodeExtensions_no_magic (buf : List Nat) (a : Nat)
    (hfail : ∀ ebs, binRead buf a 8 = .ok ebs → readU32 ebs ≠ ldsoExtensionMagic) :
    decodeExtensions buf a = [] := by
  unfold decodeExtensions
  cases hb : binRead buf a 8 with
  | error e => rfl
  | ok ebs =>
    simp only []
    rw [if_pos (hfail ebs hb)]

/-- C7: when the extension sub-header cannot be read at the aligned
position or its magic differs from `0xEAA42174`, decode still returns a
fully successful `CacheFile`, with zero extension sections. -/
theorem extension_magic_degrade (buf : List Nat) (hbs : List Nat)
    (raws : List LDSORawCacheEntry) (stn : List Nat × Nat) (entries : List LDSOCacheEntry)
    (a : Nat)
    (h1 : binRead buf 0 headerSize = .ok hbs)
    (h2 : readRawLibs buf headerSize (parseHeader hbs).NumLibs = .ok raws)
    (h3 : readerRead buf (headerSize + entrySize * (parseHeader hbs).NumLibs)
            (parseHeader hbs).StrTableSize = .ok stn)
    (h4 : resolveEntries stn.1 (headerSize + entrySize * (parseHeader hbs).NumLibs) raws
            = .ok entries)
    (ha : a = (alignedPosition ((headerSize + entrySize * (parseHeader hbs).NumLibs + stn.2 : Nat) : Int)).toNat)
    (hfail : ∀ ebs, binRead buf a 8 = .ok ebs → readU32 ebs ≠ ldsoExtensionMagic) :
    LoadCacheFile buf = .ok
      { Header := parseHeader hbs, Entries := entries, Extensions := [] } := by
  rw [LoadCacheFile_assemble buf hbs raws stn entries h1 h2 h3 h4, ← ha,
    decodeExtensions_no_magic buf a hfail]

end Ldsocache

namespace Ldsocache

/-- Witness for C7: a concrete buffer whose extension area carries the
wrong magic decodes successfully with zero extension sections. -/
theorem extension_magic_degrade_witness :
    LoadCacheFile c7buf = .ok
      { Header := parseHeader (List.replicate 48 0), Entries := [], Extensions := [] } := by
  apply extension_magic_degrade c7buf (List.replicate 48 0) [] ([], 0) [] 56
  · decide
  · decide
  · decide
  · decide
  · decide
  · intro ebs h
    rw [show binRead c7buf 56 8 = Except.ok [1, 2, 3, 4, 5, 0, 0, 0] from by decide] at h
    injection h with h
    rw [← h]
    decide

/-- When the extension descriptors parse but loading some payload fails,
the extension stage yields no sections at all. -/
theorem decodeExtensions_load_fail (buf : List Nat) (a : Nat) (ebs : List Nat)
    (shdrs : List LDSOCacheExtensionSectionHeader) (e : GoError)
    (h5 : binRead buf a 8 = .ok ebs)
    (h6 : readU32 ebs = ldsoExtensionMagic)
    (h7 : readSectionHeaders buf (a + 8) (readU32 (ebs.drop 4)) = .ok shdrs)
    (h8 : loadSectionData buf shdrs = .error e) :
    decodeExtensions buf a = [] := by
  unfold decodeExtensions
  rw [h5]
  simp only []
  rw [if_neg (by simp [h6]), h7]
  simp only []
  rw [h8]

/-- C3 (amended): when seeking to a section descriptor's offset or
reading its payload fails for any section, decode still returns success,
but with no extension sections at all: the sections already decoded
before the failing index are dropped along with the rest. -/
theorem extension_payload_failure_drops_all (buf : List Nat) (hbs : List Nat)
    (raws : List LDSORawCacheEntry) (stn : List Nat × Nat) (entries : List LDSOCacheEntry)
    (a : Nat) (ebs : List Nat) (shdrs : List LDSOCacheExtensionSectionHeader) (e : GoError)
    (h1 : binRead buf 0 headerSize = .ok hbs)
    (h2 : readRawLibs buf headerSize (parseHeader hbs).NumLibs = .ok raws)
    (h3 : readerRead buf (headerSize + entrySize * (parseHeader hbs).NumLibs)
            (parseHeader hbs).StrTableSize = .ok stn)
    (h4 : resolveEntries stn.1 (headerSize + entrySize * (parseHeader hbs).NumLibs) raws
            = .ok entries)
    (ha : a = (alignedPosition ((headerSize + entrySize * (parseHeader hbs).NumLibs + stn.2 : Nat) : Int)).toNat)
    (h5 : binRead buf a 8 = .ok ebs)
    (h6 : readU32 ebs = ldsoExtensionMagic)
    (h7 : readSectionHeaders buf (a + 8) (readU32 (ebs.drop 4)) = .ok shdrs)
    (h8 : loadSectionData buf shdrs = .error e) :
    LoadCacheFile buf = .ok
      { Header := parseHeader hbs, Entries := entries, Extensions := [] } := by
  rw [LoadCacheFile_assemble buf hbs raws stn entries h1 h2 h3 h4, ← ha,
    decodeExtensions_load_fail buf a ebs shdrs e h5 h6 h7 h8]

/-- Counterexample for C3: on `c3buf` the second descriptor's payload is
unreadable while the first section's payload loads fine on its own, yet
decode returns zero extension sections — not the sections before the
failing index. -/
theorem extension_payload_counterexample :
    (LoadCacheFile c3buf).map (fun f => f.Extensions) = .ok []
    ∧ readSectionHeaders c3buf 64 2
        = .ok [{ Tag := 0, Flags := 0, Offset := 96, Size := 4 },
               { Tag := 1, Flags := 0, Offset := 200, Size := 4 }]
    ∧ loadSectionData c3buf [{ Tag := 0, Flags := 0, Offset := 96, Size := 4 }]
        = .ok [{ Header := { Tag := 0, Flags := 0, Offset := 96, Size := 4 }, Data := [9, 9, 9, 9] }]
    ∧ loadSectionData c3buf [{ Tag := 0, Flags := 0, Offset := 96, Size := 4 },
                             { Tag := 1, Flags := 0, Offset := 200, Size := 4 }]
        = .error .eof := by
  refine ⟨by decide, by decide, by decide, by decide⟩

/-- Witness for C3's amended theorem at the concrete buffer `c3buf`. -/
theorem extension_payload_failure_drops_all_witness :
    LoadCacheFile c3buf = .ok
      { Header := parseHeader (List.replicate 48 0), Entries := [], Extensions := [] } := by
  apply extension_payload_failure_drops_all c3buf (List.replicate 48 0) [] ([], 0) [] 56
    [0x74, 0x21, 0xA4, 0xEA, 2, 0, 0, 0]
    [{ Tag := 0, Flags := 0, Offset := 96, Size := 4 },
     { Tag := 1, Flags := 0, Offset := 200, Size := 4 }] .eof
  · decide
  · decide
  · decide
  · decide
  · decide
  · decide
  · decide
  · decide
  · decide

end Ldsocache

namespace Ldsocache

/-- The only error `extractShlibName` can produce is the out-of-range
slice panic. -/
theorem extractShlibName_error (t : List Nat) (i : Nat) (e : GoError)
    (h : extractShlibName t i = .error e) : e = .sliceOutOfRange := by
  unfold extractShlibName at h
  by_cases hc : t.length < i
  · rw [if_pos hc] at h
    injection h with h
    exact h.symm
  · rw [if_neg hc] at h
    simp only [] at h
    cases hfi : (t.drop i).findIdx? (fun b => b == 0) with
    | none => rw [hfi] at h; simp at h
    | some p => rw [hfi] at h; simp at h

/-- C8 (amended): a table-relative offset beyond the table's length makes
name resolution abort with the out-of-range slice panic (the code has no
`DataCorruptionError`); when every entry's relative offset is at most the
table length, resolution performs only in-bounds slicing and succeeds. -/
theorem offset_bounds (table : List Nat) (base : Nat) (raws : List LDSORawCacheEntry) :
    ((∃ r ∈ raws, table.length < relOffset base r) →
      resolveEntries table base raws = .error .sliceOutOfRange)
    ∧ ((∀ r ∈ raws, relOffset base r ≤ table.length) →
      ∃ es, resolveEntries table base raws = .ok es ∧ es.length = raws.length) := by
  induction raws with
  | nil =>
    refine ⟨fun hex => ?_, fun _ => ⟨[], rfl, rfl⟩⟩
    rcases hex with ⟨r, hr, _⟩
    cases hr
  | cons r rest ih =>
    constructor
    · intro hex
      rw [resolveEntries]
      rcases hex with ⟨r', hr', hlt⟩
      rcases List.mem_cons.mp hr' with hhead | htail
      · subst hhead
        have hx : extractShlibName table (relOffset base r') = .error .sliceOutOfRange := by
          unfold extractShlibName
          rw [if_pos hlt]
        rw [hx]
        simp [Bind.bind, Except.bind]
      · cases hx : extractShlibName table (relOffset base r) with
        | error e =>
          have he := extractShlibName_error table _ e hx
          subst he
          simp [Bind.bind, Except.bind]
        | ok name =>
          simp only [Bind.bind, Except.bind]
          rw [ih.1 ⟨r', htail, hlt⟩]
    · intro hall
      rw [resolveEntries]
      have hx : extractShlibName table (relOffset base r)
          = .ok ((table.drop (relOffset base r)).takeWhile (fun b => !(b == 0))) := by
        unfold extractShlibName
        rw [if_neg (by have := hall r (List.mem_cons_self r rest); omega)]
        exact cut_at_first_nul _
      rw [hx]
      simp only [Bind.bind, Except.bind]
      rcases ih.2 (fun r' hr' => hall r' (List.mem_cons_of_mem r hr')) with ⟨es, hes, hlen⟩
      rw [hes]
      exact ⟨_, rfl, by simp [hlen]⟩

/-- Counterexample for C8: a concrete buffer whose single entry has a
table-relative offset far beyond the 2-byte table; decode aborts with the
slice panic, not a corruption-error result (no such result exists in the
code). -/
theorem offset_bounds_counterexample :
    LoadCacheFile c8buf = .error .sliceOutOfRange
    ∧ relOffset 72 { Flags := 0, Key := 0, Value := 0,
                     OSVersion_Needed := 0, HWCap_Needed := 0 } = 4294967224 := by
  refine ⟨by decide, by decide⟩

/-- Witness for C8's amended theorem: both branches applied at concrete
tables and raw entries. -/
theorem offset_bounds_witness :
    resolveEntries [1, 0] 0
        [{ Flags := 0, Key := 0, Value := 5, OSVersion_Needed := 0, HWCap_Needed := 0 }]
      = .error .sliceOutOfRange
    ∧ ∃ es, resolveEntries [1, 0] 0
        [{ Flags := 0, Key := 0, Value := 1, OSVersion_Needed := 0, HWCap_Needed := 0 }]
      = .ok es ∧ es.length = 1 :=
  ⟨(offset_bounds [1, 0] 0 _).1 (by decide), (offset_bounds [1, 0] 0 _).2 (by decide)⟩

end Ldsocache

namespace Ldsocache

/-- The only error name resolution can produce is the slice panic. -/
theorem resolveEntries_error (table : List Nat) (base : Nat) :
    ∀ (rs : List LDSORawCacheEntry) (e : GoError),
      resolveEntries table base rs = .error e → e = .sliceOutOfRange := by
  intro rs
  induction rs with
  | nil => intro e h; simp [resolveEntries] at h
  | cons r rest ih =>
    intro e h
    rw [resolveEntries] at h
    cases hx : extractShlibName table (relOffset base r) with
    | error e1 =>
      rw [hx] at h
      simp [Bind.bind, Except.bind] at h
      rw [← h]
      exact extractShlibName_error table _ e1 hx
    | ok name =>
      rw [hx] at h
      simp only [Bind.bind, Except.bind] at h
      cases ht : resolveEntries table base rest with
      | error e2 =>
        rw [ht] at h
        simp only [Except.error.injEq] at h
        rw [← h]
        exact ih e2 ht
      | ok tail => rw [ht] at h; simp at h

/-- Decode propagates a name-resolution failure verbatim. -/
theorem LoadCacheFile_resolve_error (buf : List Nat) (hbs : List Nat)
    (raws : List LDSORawCacheEntry) (stn : List Nat × Nat) (e : GoError)
    (h1 : binRead buf 0 headerSize = .ok hbs)
    (h2 : readRawLibs buf headerSize (parseHeader hbs).NumLibs = .ok raws)
    (h3 : readerRead buf (headerSize + entrySize * (parseHeader hbs).NumLibs)
            (parseHeader hbs).StrTableSize = .ok stn)
    (h4 : resolveEntries stn.1 (headerSize + entrySize * (parseHeader hbs).NumLibs) raws
            = .error e) :
    LoadCacheFile buf = .error e := by
  rw [LoadCacheFile, h1]
  simp only [Bind.bind, Except.bind]
  rw [h2]
  simp only []
  rw [h3]
  simp only []
  rw [h4]

/-- C4 (amended): the string-table read follows `bytes.Reader.Read`
semantics, not exactly-`strTableSize` semantics: decode fails (with the
underlying `io.EOF`) only when zero bytes remain after the entry table;
when at least one byte remains the read succeeds, copying
`min(strTableSize, remaining)` bytes and leaving the rest of the table
zero-filled, and decode never reports truncation. -/
theorem string_table_short_read (buf : List Nat) (hbs : List Nat)
    (raws : List LDSORawCacheEntry)
    (h1 : binRead buf 0 headerSize = .ok hbs)
    (h2 : readRawLibs buf headerSize (parseHeader hbs).NumLibs = .ok raws) :
    (buf.length ≤ headerSize + entrySize * (parseHeader hbs).NumLibs →
      LoadCacheFile buf = .error .eof)
    ∧ (headerSize + entrySize * (parseHeader hbs).NumLibs < buf.length →
      readerRead buf (headerSize + entrySize * (parseHeader hbs).NumLibs)
          (parseHeader hbs).StrTableSize
        = .ok ((buf.drop (headerSize + entrySize * (parseHeader hbs).NumLibs)).take
                 (min (parseHeader hbs).StrTableSize
                   (buf.length - (headerSize + entrySize * (parseHeader hbs).NumLibs)))
               ++ List.replicate ((parseHeader hbs).StrTableSize
                 - min (parseHeader hbs).StrTableSize
                     (buf.length - (headerSize + entrySize * (parseHeader hbs).NumLibs))) 0,
               min (parseHeader hbs).StrTableSize
                 (buf.length - (headerSize + entrySize * (parseHeader hbs).NumLibs)))
      ∧ LoadCacheFile buf ≠ .error .eof) := by
  constructor
  · intro hle
    have h3 : readerRead buf (headerSize + entrySize * (parseHeader hbs).NumLibs)
        (parseHeader hbs).StrTableSize = .error .eof := by
      unfold readerRead
      rw [if_pos hle]
    rw [LoadCacheFile, h1]
    simp only [Bind.bind, Except.bind]
    rw [h2]
    simp only []
    rw [h3]
  · intro hlt
    have h3 : readerRead buf (headerSize + entrySize * (parseHeader hbs).NumLibs)
        (parseHeader hbs).StrTableSize
        = .ok ((buf.drop (headerSize + entrySize * (parseHeader hbs).NumLibs)).take
                 (min (parseHeader hbs).StrTableSize
                   (buf.length - (headerSize + entrySize * (parseHeader hbs).NumLibs)))
               ++ List.replicate ((parseHeader hbs).StrTableSize
                 - min (parseHeader hbs).StrTableSize
                     (buf.length - (headerSize + entrySize * (parseHeader hbs).NumLibs))) 0,
               min (parseHeader hbs).StrTableSize
                 (buf.length - (headerSize + entrySize * (parseHeader hbs).NumLibs))) := by
      unfold readerRead
      rw [if_neg (by omega)]
    refine ⟨h3, ?_⟩
    cases h4 : resolveEntries
        ((buf.drop (headerSize + entrySize * (parseHeader hbs).NumLibs)).take
                 (min (parseHeader hbs).StrTableSize
                   (buf.length - (headerSize + entrySize * (parseHeader hbs).NumLibs)))
               ++ List.replicate ((parseHeader hbs).StrTableSize
                 - min (parseHeader hbs).StrTableSize
                     (buf.length - (headerSize + entrySize * (parseHeader hbs).NumLibs))) 0)
        (headerSize + entrySize * (parseHeader hbs).NumLibs) raws with
    | error e =>
      have hd := LoadCacheFile_resolve_error buf hbs raws _ e h1 h2 h3 h4
      rw [hd]
      have he := resolveEntries_error _ _ raws e h4
      subst he
      intro hc
      simp at hc
    | ok entries =>
      have hd := LoadCacheFile_assemble buf hbs raws _ entries h1 h2 h3 h4
      rw [hd]
      intro hc
      simp at hc

end Ldsocache

namespace Ldsocache

/-- Counterexample for C4: `c4buf` leaves only one byte for a 4-byte
string table, yet decode succeeds (zero-filling the table) instead of
failing with a truncation error. -/
theorem string_table_short_read_counterexample :
    c4buf.length = 49
    ∧ (parseHeader (c4buf.take 48)).StrTableSize = 4
    ∧ (parseHeader (c4buf.take 48)).NumLibs = 0
    ∧ LoadCacheFile c4buf
        = .ok { Header := parseHeader (c4buf.take 48), Entries := [], Extensions := [] } := by
  refine ⟨by decide, by decide, by decide, by decide⟩

/-- Witness for C4's amended theorem: the exhausted-reader branch on
`c4buf2` and the at-least-one-byte branch on `c4buf`. -/
theorem string_table_short_read_witness :
    LoadCacheFile c4buf2 = .error .eof ∧ LoadCacheFile c4buf ≠ .error .eof :=
  ⟨(string_table_short_read c4buf2
      (List.replicate 20 0 ++ [0, 0, 0, 0] ++ [4, 0, 0, 0] ++ List.replicate 20 0) []
      (by decide) (by decide)).1 (by decide),
   ((string_table_short_read c4buf
      (List.replicate 20 0 ++ [0, 0, 0, 0] ++ [4, 0, 0, 0] ++ List.replicate 20 0) []
      (by decide) (by decide)).2 (by decide)).2⟩

end Ldsocache

namespace Ldsocache

/-- The logical string table generated by encode: every entry's name
followed by a NUL terminator, in order. -/
def strTabOf (es : List LDSOCacheEntry) : List Nat :=
  es.flatMap (fun e => e.Name ++ [0])

/-- The raw record encode builds for an entry whose name starts at
table-relative offset `s`, with the `uint32` wrapping made explicit. -/
def mkRaw (tS s : Nat) (e : LDSOCacheEntry) : LDSORawCacheEntry :=
  { Flags := e.Flags
    Key := ((tS % 4294967296 + s % 4294967296) % 4294967296
      + (filepathDir e.Name).length % 4294967296) % 4294967296
    Value := (tS % 4294967296 + s % 4294967296) % 4294967296
    OSVersion_Needed := e.OSVersion_Needed
    HWCap_Needed := e.HWCap_Needed }

/-- The raw records encode builds, tracked by table-relative offset. -/
def rawsFrom (tS s : Nat) : List LDSOCacheEntry → List LDSORawCacheEntry
  | [] => []
  | e :: es => mkRaw tS s e :: rawsFrom tS (s + e.Name.length + 1) es

/-- The table accumulated by the encode loop is the prior contents
followed by the logical string table. -/
theorem buildTablesStep_table (tS : Nat) :
    ∀ (es : List LDSOCacheEntry) (st : List Nat),
      (buildTablesStep tS st es).2 = st ++ strTabOf es := by
  intro es
  induction es with
  | nil => intro st; simp [buildTablesStep, strTabOf]
  | cons e rest ih =>
    intro st
    rw [buildTablesStep]
    simp only []
    rw [ih (st ++ e.Name ++ [0])]
    simp [strTabOf]

/-- The raw records built by the encode loop, as offset-indexed records. -/
theorem buildTablesStep_raws (tS : Nat) :
    ∀ (es : List LDSOCacheEntry) (st : List Nat),
      (buildTablesStep tS st es).1 = rawsFrom tS st.length es := by
  intro es
  induction es with
  | nil => intro st; simp [buildTablesStep, rawsFrom]
  | cons e rest ih =>
    intro st
    rw [buildTablesStep, rawsFrom]
    simp only []
    rw [ih (st ++ e.Name ++ [0])]
    have hl : (st ++ e.Name ++ [0]).length = st.length + e.Name.length + 1 := by
      simp
      omega
    rw [hl]
    rfl

/-- One raw record is built per entry. -/
theorem rawsFrom_length (tS : Nat) :
    ∀ (es : List LDSOCacheEntry) (s : Nat), (rawsFrom tS s es).length = es.length := by
  intro es
  induction es with
  | nil => intro s; rfl
  | cons e rest ih => intro s; simp [rawsFrom, ih]

/-- Shape of a successful encode: header bytes, raw records, string
table, alignment padding, extension area — with a nonnegative pad. -/
theorem LDSOCacheFileWrite_ok (cf : LDSOCacheFile) (out : List Nat)
    (h : LDSOCacheFileWrite cf = .ok out) :
    out = encodeHeader cf.Header
        ++ (buildTables (headerSize + cf.Entries.length * entrySize) cf.Entries).1.flatMap encodeRawEntry
        ++ (buildTables (headerSize + cf.Entries.length * entrySize) cf.Entries).2
        ++ List.replicate
             ((alignedPosition (((encodeHeader cf.Header
                ++ (buildTables (headerSize + cf.Entries.length * entrySize) cf.Entries).1.flatMap encodeRawEntry
                ++ (buildTables (headerSize + cf.Entries.length * entrySize) cf.Entries).2).length : Nat) : Int)
               - (((encodeHeader cf.Header
                ++ (buildTables (headerSize + cf.Entries.length * entrySize) cf.Entries).1.flatMap encodeRawEntry
                ++ (buildTables (headerSize + cf.Entries.length * entrySize) cf.Entries).2).length : Nat) : Int)).toNat) 0
        ++ encodeExtensionArea cf.Extensions := by
  simp only [LDSOCacheFileWrite] at h
  by_cases hc : alignedPosition (((encodeHeader cf.Header
      ++ (buildTables (headerSize + cf.Entries.length * entrySize) cf.Entries).1.flatMap encodeRawEntry
      ++ (buildTables (headerSize + cf.Entries.length * entrySize) cf.Entries).2).length : Nat) : Int)
      - (((encodeHeader cf.Header
      ++ (buildTables (headerSize + cf.Entries.length * entrySize) cf.Entries).1.flatMap encodeRawEntry
      ++ (buildTables (headerSize + cf.Entries.length * entrySize) cf.Entries).2).length : Nat) : Int) < 0
  · rw [if_pos hc] at h
    simp at h
  · rw [if_neg hc] at h
    simp only [Except.ok.injEq] at h
    rw [← h]

end Ldsocache

namespace Ldsocache

/-- The `uint32` at byte offset 20 of an encoded-header-prefixed buffer
is the header's `NumLibs` field. -/
theorem readU32_at20 (h : LDSORawCacheHeader) (rest : List Nat) :
    readU32 ((encodeHeader h ++ rest).drop 20) = h.NumLibs % 4294967296 := by
  have hsplit : encodeHeader h ++ rest
      = (padTrunc 17 h.Magic ++ padTrunc 3 h.Version)
        ++ (u32le h.NumLibs ++ (u32le h.StrTableSize ++ ([h.Flags % 256]
          ++ (padTrunc 3 h.Unused0 ++ (u32le h.ExtOffset ++ (padTruncU32 3 h.Unused1 ++ rest)))))) := by
    simp [encodeHeader]
  rw [hsplit, List.drop_left' (by simp [padTrunc_length]), readU32_u32le]

/-- The `uint32` at byte offset 24 of an encoded-header-prefixed buffer
is the header's `StrTableSize` field. -/
theorem readU32_at24 (h : LDSORawCacheHeader) (rest : List Nat) :
    readU32 ((encodeHeader h ++ rest).drop 24) = h.StrTableSize % 4294967296 := by
  have hsplit : encodeHeader h ++ rest
      = ((padTrunc 17 h.Magic ++ padTrunc 3 h.Version) ++ u32le h.NumLibs)
        ++ (u32le h.StrTableSize ++ ([h.Flags % 256]
          ++ (padTrunc 3 h.Unused0 ++ (u32le h.ExtOffset ++ (padTruncU32 3 h.Unused1 ++ rest))))) := by
    simp [encodeHeader]
  rw [hsplit, List.drop_left' (by simp [padTrunc_length, u32le_length]), readU32_u32le]

/-- C10: a successful encode serializes the model's header verbatim — the
first 48 output bytes are exactly the header's own serialization, the
`uint32` fields at offsets 20 and 24 read back as the model's `NumLibs`
and `StrTableSize` — while the entry table and string table actually
written are derived solely from the entry list (one raw record per entry,
the table being the concatenated names with NUL terminators); hence a
header whose `NumLibs` differs from the entry count yields a file whose
header field disagrees with the number of records written. -/
theorem encode_header_verbatim (cf : LDSOCacheFile) (out : List Nat)
    (h : LDSOCacheFileWrite cf = .ok out) :
    out.take 48 = encodeHeader cf.Header
    ∧ readU32 (out.drop 20) = cf.Header.NumLibs % 4294967296
    ∧ readU32 (out.drop 24) = cf.Header.StrTableSize % 4294967296
    ∧ (buildTables (headerSize + cf.Entries.length * entrySize) cf.Entries).1.length
        = cf.Entries.length
    ∧ (buildTables (headerSize + cf.Entries.length * entrySize) cf.Entries).2
        = strTabOf cf.Entries
    ∧ (cf.Header.NumLibs < 4294967296 → cf.Header.NumLibs ≠ cf.Entries.length →
        readU32 (out.drop 20) ≠ cf.Entries.length) := by
  have hout := LDSOCacheFileWrite_ok cf out h
  set A := (buildTables (headerSize + cf.Entries.length * entrySize) cf.Entries).1.flatMap encodeRawEntry with hA
  set B := (buildTables (headerSize + cf.Entries.length * entrySize) cf.Entries).2 with hB
  set E := encodeExtensionArea cf.Extensions with hE
  set padl := (alignedPosition (((encodeHeader cf.Header ++ A ++ B).length : Nat) : Int)
      - (((encodeHeader cf.Header ++ A ++ B).length : Nat) : Int)).toNat with hpadl
  have hr : out = encodeHeader cf.Header ++ (A ++ (B ++ (List.replicate padl 0 ++ E))) := by
    rw [hout]
    simp [List.append_assoc]
  have ht : out.take 48 = encodeHeader cf.Header := by
    rw [hr, List.take_left' (encodeHeader_length _)]
  have h20 : readU32 (out.drop 20) = cf.Header.NumLibs % 4294967296 := by
    rw [hr, readU32_at20]
  have h24 : readU32 (out.drop 24) = cf.Header.StrTableSize % 4294967296 := by
    rw [hr, readU32_at24]
  refine ⟨ht, h20, h24, ?_, ?_, ?_⟩
  · rw [hB, buildTables] at *
    rw [buildTablesStep_raws]
    simp [rawsFrom_length]
  · rw [hB, buildTables, buildTablesStep_table]
    rfl
  · intro hlt hne
    rw [h20, Nat.mod_eq_of_lt hlt]
    exact hne

/-- A concrete model whose header fields disagree with its (empty) entry
list, exercising the frame property of encode. -/
def c10cf : LDSOCacheFile :=
  { Header := { Magic := [], Version := [], NumLibs := 5, StrTableSize := 7,
                Flags := 0, Unused0 := [], ExtOffset := 0, Unused1 := [] }
    Entries := [], Extensions := [] }

/-- Witness for C10 at `c10cf`. -/
theorem encode_header_verbatim_witness :
    ∃ out, LDSOCacheFileWrite c10cf = .ok out
      ∧ out.take 48 = encodeHeader c10cf.Header
      ∧ readU32 (out.drop 20) = 5 ∧ readU32 (out.drop 24) = 7
      ∧ readU32 (out.drop 20) ≠ c10cf.Entries.length := by
  have hw : LDSOCacheFileWrite c10cf
      = .ok (List.replicate 20 0 ++ [5, 0, 0, 0, 7, 0, 0, 0] ++ List.replicate 28 0) := by
    decide
  have hth := encode_header_verbatim c10cf _ hw
  refine ⟨_, hw, hth.1, ?_, ?_, hth.2.2.2.2.2 (by decide) (by decide)⟩
  · rw [hth.2.1]
    decide
  · rw [hth.2.2.1]
    decide

end Ldsocache

namespace Ldsocache

/-- The first NUL after a NUL-free name sits exactly at the name's
length. -/
theorem findIdx_nul (name suf : List Nat) (hnul : ¬ 0 ∈ name) :
    (name ++ 0 :: suf).findIdx? (fun b => b == 0) = some name.length := by
  induction name with
  | nil => simp
  | cons b rest ih =>
    have hb : b ≠ 0 := fun hb => hnul (by simp [hb])
    have hrest : ¬ 0 ∈ rest := fun hr => hnul (by simp [hr])
    rw [List.cons_append, List.findIdx?_cons]
    rw [if_neg (by simp [hb]), List.findIdx?_succ, ih hrest]
    simp

/-- Extracting a name from the middle of a string table: starting `k`
bytes into a NUL-free name that is followed by a NUL yields the rest of
that name. -/
theorem extract_mid (pre name suf : List Nat) (k : Nat) (hk : k ≤ name.length)
    (hnul : ¬ 0 ∈ name) :
    extractShlibName (pre ++ (name ++ 0 :: suf)) (pre.length + k) = .ok (name.drop k) := by
  have hdropnul : ¬ 0 ∈ name.drop k := fun hm => hnul (List.mem_of_mem_drop hm)
  have hd : (pre ++ (name ++ 0 :: suf)).drop (pre.length + k)
      = (name.drop k) ++ 0 :: suf := by
    rw [← List.drop_drop, List.drop_left]
    rw [List.drop_append_eq_append_drop, show k - name.length = 0 from by omega, List.drop_zero]
  unfold extractShlibName
  rw [if_neg (by simp; omega)]
  simp only [hd]
  rw [show (name.drop k) ++ 0 :: suf = (name.drop k) ++ (0 :: suf) from rfl] at *
  rw [findIdx_nul _ _ hdropnul]
  simp only []
  rw [List.take_left]

end Ldsocache

namespace Ldsocache

/-- Modelled from the spec: the basename component of a name — the name
with its directory portion (everything up to and including the last
separator byte 47) stripped.  Used only to compare the emitted layout
against the spec's claim. -/
def specBasename (name : List Nat) : List Nat :=
  (name.reverse.takeWhile (fun c => c ≠ 47)).reverse

/-- Positional facts about the raw records encode builds: each record's
`Key` is its `Value` plus the length of `filepath.Dir` of the entry's
name (wrapping `uint32`), and the table bytes starting at the
`Key`-relative offset are the name's suffix from that directory length
onward. -/
theorem key_offset_aux (tS : Nat) (allT : List Nat) :
    ∀ (es : List LDSOCacheEntry) (pre : List Nat),
      allT = pre ++ strTabOf es →
      allT.length < 4294967296 →
      (∀ e ∈ es, ¬ 0 ∈ e.Name) →
      (∀ e ∈ es, (filepathDir e.Name).length ≤ e.Name.length) →
      ∀ p ∈ (rawsFrom tS pre.length es).zip es,
        p.1.Key = (p.1.Value + (filepathDir p.2.Name).length) % 4294967296
        ∧ extractShlibName allT ((p.1.Key + (4294967296 - tS % 4294967296)) % 4294967296)
          = .ok (p.2.Name.drop (filepathDir p.2.Name).length) := by
  intro es
  induction es with
  | nil =>
    intro pre _ _ _ _ p hp
    simp [rawsFrom] at hp
  | cons e rest ih =>
    intro pre htab hlen hnul hdir p hp
    rw [rawsFrom] at hp
    rw [List.zip_cons_cons] at hp
    rcases List.mem_cons.mp hp with hhead | htail
    · subst hhead
      have htab' : allT = pre ++ (e.Name ++ 0 :: strTabOf rest) := by
        rw [htab]
        simp [strTabOf]
      have hlenT : allT.length = pre.length + e.Name.length + 1 + (strTabOf rest).length := by
        rw [htab']
        simp
        omega
      have hdirE := hdir e (List.mem_cons_self e rest)
      constructor
      · simp only [mkRaw]
        omega
      · have hrel : (((tS % 4294967296 + pre.length % 4294967296) % 4294967296
            + (filepathDir e.Name).length % 4294967296) % 4294967296
            + (4294967296 - tS % 4294967296)) % 4294967296
            = pre.length + (filepathDir e.Name).length := by
          omega
        simp only [mkRaw]
        rw [hrel, htab']
        exact extract_mid pre e.Name (strTabOf rest) _ hdirE (hnul e (List.mem_cons_self e rest))
    · have htab' : allT = (pre ++ e.Name ++ [0]) ++ strTabOf rest := by
        rw [htab]
        simp [strTabOf]
      have hpre' : (pre ++ e.Name ++ [0]).length = pre.length + e.Name.length + 1 := by
        simp
        omega
      have := ih (pre ++ e.Name ++ [0]) htab' hlen
        (fun x hx => hnul x (List.mem_cons_of_mem e hx))
        (fun x hx => hdir x (List.mem_cons_of_mem e hx)) p
      rw [hpre'] at this
      exact this htail

/-- C5 (amended): for every entry written by encode, the raw record's
`keyOffset` equals `valueOffset` plus the length of `filepath.Dir` of the
entry's name (in wrapping `uint32` arithmetic), and the string stored at
`keyOffset` in the emitted string table is the name's suffix starting at
that directory length — for a name containing a separator this is the
separator followed by the basename, not the bare basename. -/
theorem key_offset_formula (tS : Nat) (es : List LDSOCacheEntry)
    (hnul : ∀ e ∈ es, ¬ 0 ∈ e.Name)
    (hdir : ∀ e ∈ es, (filepathDir e.Name).length ≤ e.Name.length)
    (hbig : (strTabOf es).length < 4294967296) :
    ∀ p ∈ ((buildTables tS es).1).zip es,
      p.1.Key = (p.1.Value + (filepathDir p.2.Name).length) % 4294967296
      ∧ extractShlibName (strTabOf es)
          ((p.1.Key + (4294967296 - tS % 4294967296)) % 4294967296)
        = .ok (p.2.Name.drop (filepathDir p.2.Name).length) := by
  intro p hp
  rw [buildTables, buildTablesStep_raws] at hp
  exact key_offset_aux tS (strTabOf es) es [] (by simp) hbig hnul hdir p hp

end Ldsocache

namespace Ldsocache

/-- Counterexample for C5: for the entry name `"/usr/lib/libc.so.6"`, the
emitted `keyOffset` (72 + 8 = 80) points at `"/libc.so.6"` — the
separator followed by the basename — which differs from the basename
component `"libc.so.6"` the claim promises. -/
theorem key_offset_counterexample :
    (buildTables 72 [{ Flags := 0, Name := c5name, OSVersion_Needed := 0, HWCap_Needed := 0 }]).1
      = [{ Flags := 0, Key := 80, Value := 72, OSVersion_Needed := 0, HWCap_Needed := 0 }]
    ∧ (buildTables 72 [{ Flags := 0, Name := c5name, OSVersion_Needed := 0, HWCap_Needed := 0 }]).2
      = c5name ++ [0]
    ∧ extractShlibName (c5name ++ [0]) (80 - 72) = .ok (47 :: specBasename c5name)
    ∧ specBasename c5name = [108, 105, 98, 99, 46, 115, 111, 46, 54]
    ∧ 47 :: specBasename c5name ≠ specBasename c5name := by
  refine ⟨by decide, by decide, by decide, by decide, by decide⟩

/-- Witness for C5's amended theorem at the concrete one-entry model. -/
theorem key_offset_formula_witness :
    ({ Flags := 0, Key := 80, Value := 72, OSVersion_Needed := 0,
       HWCap_Needed := 0 } : LDSORawCacheEntry).Key
      = (({ Flags := 0, Key := 80, Value := 72, OSVersion_Needed := 0,
            HWCap_Needed := 0 } : LDSORawCacheEntry).Value
        + (filepathDir c5name).length) % 4294967296
    ∧ extractShlibName
        (strTabOf [{ Flags := 0, Name := c5name, OSVersion_Needed := 0, HWCap_Needed := 0 }])
        ((({ Flags := 0, Key := 80, Value := 72, OSVersion_Needed := 0,
             HWCap_Needed := 0 } : LDSORawCacheEntry).Key + (4294967296 - 72 % 4294967296)) % 4294967296)
      = .ok (c5name.drop (filepathDir c5name).length) :=
  key_offset_formula 72
    [{ Flags := 0, Name := c5name, OSVersion_Needed := 0, HWCap_Needed := 0 }]
    (by decide) (by decide) (by decide)
    ({ Flags := 0, Key := 80, Value := 72, OSVersion_Needed := 0, HWCap_Needed := 0 },
     { Flags := 0, Name := c5name, OSVersion_Needed := 0, HWCap_Needed := 0 })
    (by decide)

end Ldsocache

namespace Ldsocache

/-- Serialized raw records occupy 24 bytes each. -/
theorem flatMap_encodeRawEntry_length (rs : List LDSORawCacheEntry) :
    (rs.flatMap encodeRawEntry).length = 24 * rs.length := by
  induction rs with
  | nil => rfl
  | cons r rest ih =>
    simp only [List.flatMap_cons, List.length_append, List.length_cons, ih, encodeRawEntry_length]
    omega

/-- Reading the raw entry table back from its exact region of the buffer
yields the records reduced modulo their field widths. -/
theorem readRawLibs_region :
    ∀ (rs : List LDSORawCacheEntry) (pre suf : List Nat),
      readRawLibs (pre ++ (rs.flatMap encodeRawEntry ++ suf)) pre.length rs.length
        = .ok (rs.map reduceRaw) := by
  intro rs
  induction rs with
  | nil => intro pre suf; rfl
  | cons r rest ih =>
    intro pre suf
    have hbufeq : pre ++ ((r :: rest).flatMap encodeRawEntry ++ suf)
        = (pre ++ encodeRawEntry r) ++ (rest.flatMap encodeRawEntry ++ suf) := by
      simp [List.flatMap_cons]
    have hlen : ((pre ++ encodeRawEntry r) ++ (rest.flatMap encodeRawEntry ++ suf)).length
        = pre.length + 24 + (24 * rest.length + suf.length) := by
      simp only [List.length_append, flatMap_encodeRawEntry_length, encodeRawEntry_length]
    rw [List.length_cons, readRawLibs]
    have hb : binRead (pre ++ ((r :: rest).flatMap encodeRawEntry ++ suf)) pre.length entrySize
        = .ok (encodeRawEntry r) := by
      unfold binRead
      rw [if_neg (by simp [entrySize]), if_neg (by rw [hbufeq, hlen]; omega),
        if_pos (by rw [hbufeq, hlen]; simp [entrySize])]
      rw [hbufeq, List.append_assoc, List.drop_left,
        show entrySize = (encodeRawEntry r).length from (encodeRawEntry_length r).symm,
        List.take_left]
    rw [hb]
    simp only [Bind.bind, Except.bind]
    have hr : readRawLibs (pre ++ ((r :: rest).flatMap encodeRawEntry ++ suf))
        (pre.length + entrySize) rest.length = .ok (rest.map reduceRaw) := by
      have hlpre : (pre ++ encodeRawEntry r).length = pre.length + entrySize := by
        simp [encodeRawEntry_length, entrySize]
      rw [hbufeq, ← hlpre]
      exact ih (pre ++ encodeRawEntry r) suf
    rw [hr]
    simp only [Except.ok.injEq, List.map_cons]
    rw [show parseRawEntry (encodeRawEntry r) = reduceRaw r from by
      have := parseRawEntry_encodeRawEntry r []
      simpa using this]

end Ldsocache

namespace Ldsocache

/-- Parsing an encoded header recovers `NumLibs` modulo 2^32. -/
theorem parseHeader_encode_NumLibs (h : LDSORawCacheHeader) :
    (parseHeader (encodeHeader h)).NumLibs = h.NumLibs % 4294967296 := by
  have := readU32_at20 h []
  rw [List.append_nil] at this
  exact this

/-- Parsing an encoded header recovers `StrTableSize` modulo 2^32. -/
theorem parseHeader_encode_StrTableSize (h : LDSORawCacheHeader) :
    (parseHeader (encodeHeader h)).StrTableSize = h.StrTableSize % 4294967296 := by
  have := readU32_at24 h []
  rw [List.append_nil] at this
  exact this

/-- Name resolution over the raw records built by encode (reduced by the
decode round trip) recovers exactly the original entries. -/
theorem resolve_aux (tS : Nat) (allT : List Nat) :
    ∀ (es : List LDSOCacheEntry) (pre : List Nat),
      allT = pre ++ strTabOf es →
      allT.length < 4294967296 →
      (∀ e ∈ es, ¬ 0 ∈ e.Name) →
      (∀ e ∈ es, e.Flags < 4294967296 ∧ e.OSVersion_Needed < 4294967296
        ∧ e.HWCap_Needed < 18446744073709551616) →
      resolveEntries allT tS ((rawsFrom tS pre.length es).map reduceRaw) = .ok es := by
  intro es
  induction es with
  | nil => intro pre _ _ _ _; rfl
  | cons e rest ih =>
    intro pre htab hlen hnul hfields
    rw [rawsFrom, List.map_cons, resolveEntries]
    have htab' : allT = pre ++ (e.Name ++ 0 :: strTabOf rest) := by
      rw [htab]
      simp [strTabOf]
    have hrel : relOffset tS (reduceRaw (mkRaw tS pre.length e)) = pre.length := by
      have hplen : pre.length ≤ allT.length := by
        rw [htab]
        simp
      simp only [relOffset, reduceRaw, mkRaw]
      omega
    have hx : extractShlibName allT (relOffset tS (reduceRaw (mkRaw tS pre.length e)))
        = .ok e.Name := by
      rw [hrel, htab']
      have := extract_mid pre e.Name (strTabOf rest) 0 (Nat.zero_le _)
        (hnul e (List.mem_cons_self e rest))
      rw [Nat.add_zero, List.drop_zero] at this
      exact this
    rw [hx]
    simp only [Bind.bind, Except.bind]
    have htail : resolveEntries allT tS ((rawsFrom tS (pre.length + e.Name.length + 1) rest).map reduceRaw)
        = .ok rest := by
      have hpre' : (pre ++ e.Name ++ [0]).length = pre.length + e.Name.length + 1 := by
        simp
        omega
      rw [← hpre']
      exact ih (pre ++ e.Name ++ [0]) (by rw [htab]; simp [strTabOf]) hlen
        (fun x hx => hnul x (List.mem_cons_of_mem e hx))
        (fun x hx => hfields x (List.mem_cons_of_mem e hx))
    rw [htail]
    simp only [Except.ok.injEq]
    obtain ⟨hf, ho, hw⟩ := hfields e (List.mem_cons_self e rest)
    simp only [reduceRaw, mkRaw]
    rw [Nat.mod_eq_of_lt hf, Nat.mod_eq_of_lt ho, Nat.mod_eq_of_lt hw]

end Ldsocache

namespace Ldsocache

/-- C1 (amended): encode-then-decode round trip for a well-formed model:
header counts consistent with the entry list (`NumLibs = length entries`,
`StrTableSize` = emitted table size, both in `uint32` range), NUL-free
names, entry fields in range, and a string-table end position whose
16-byte alignment does not force negative padding (otherwise encode
panics).  Decode then succeeds and reproduces `NumLibs`, `StrTableSize`
and every entry exactly. -/
theorem encode_decode_roundtrip (cf : LDSOCacheFile)
    (hN : cf.Header.NumLibs = cf.Entries.length)
    (hNb : cf.Header.NumLibs < 4294967296)
    (hT : cf.Header.StrTableSize = (strTabOf cf.Entries).length)
    (hTb : cf.Header.StrTableSize < 4294967296)
    (hnul : ∀ e ∈ cf.Entries, ¬ 0 ∈ e.Name)
    (hfields : ∀ e ∈ cf.Entries, e.Flags < 4294967296 ∧ e.OSVersion_Needed < 4294967296
      ∧ e.HWCap_Needed < 18446744073709551616)
    (hpad : (headerSize + entrySize * cf.Entries.length + (strTabOf cf.Entries).length) % 16 ≤ 8) :
    ∃ out file, LDSOCacheFileWrite cf = .ok out ∧ LoadCacheFile out = .ok file
      ∧ file.Header.NumLibs = cf.Header.NumLibs
      ∧ file.Header.StrTableSize = cf.Header.StrTableSize
      ∧ file.Entries = cf.Entries := by
  have hmul : headerSize + cf.Entries.length * entrySize = headerSize + entrySize * cf.Entries.length := by
    rw [Nat.mul_comm]
  have hraws : (buildTables (headerSize + cf.Entries.length * entrySize) cf.Entries).1
      = rawsFrom (headerSize + cf.Entries.length * entrySize) 0 cf.Entries := by
    rw [buildTables, buildTablesStep_raws]
    rfl
  have htable : (buildTables (headerSize + cf.Entries.length * entrySize) cf.Entries).2
      = strTabOf cf.Entries := by
    rw [buildTables, buildTablesStep_table]
    rfl
  have hrawslen : (rawsFrom (headerSize + cf.Entries.length * entrySize) 0 cf.Entries).length
      = cf.Entries.length := rawsFrom_length _ _ _
  have hbodylen :
      (encodeHeader cf.Header
        ++ (rawsFrom (headerSize + cf.Entries.length * entrySize) 0 cf.Entries).flatMap encodeRawEntry
        ++ strTabOf cf.Entries).length
      = 48 + 24 * cf.Entries.length + (strTabOf cf.Entries).length := by
    simp only [List.length_append, encodeHeader_length, flatMap_encodeRawEntry_length, hrawslen]
  have hpad48 : (48 + 24 * cf.Entries.length + (strTabOf cf.Entries).length) % 16 ≤ 8 := by
    simp only [headerSize, entrySize] at hpad
    exact hpad
  -- Encode succeeds, with padding 8 - bodyLength % 16.
  have hcond : ¬ (alignedPosition
      (((encodeHeader cf.Header
        ++ (rawsFrom (headerSize + cf.Entries.length * entrySize) 0 cf.Entries).flatMap encodeRawEntry
        ++ strTabOf cf.Entries).length : Nat) : Int)
      - (((encodeHeader cf.Header
        ++ (rawsFrom (headerSize + cf.Entries.length * entrySize) 0 cf.Entries).flatMap encodeRawEntry
        ++ strTabOf cf.Entries).length : Nat) : Int) < 0) := by
    rw [alignedPosition_eval, hbodylen]
    omega
  have hpadn : (alignedPosition
      (((encodeHeader cf.Header
        ++ (rawsFrom (headerSize + cf.Entries.length * entrySize) 0 cf.Entries).flatMap encodeRawEntry
        ++ strTabOf cf.Entries).length : Nat) : Int)
      - (((encodeHeader cf.Header
        ++ (rawsFrom (headerSize + cf.Entries.length * entrySize) 0 cf.Entries).flatMap encodeRawEntry
        ++ strTabOf cf.Entries).length : Nat) : Int)).toNat
      = 8 - (48 + 24 * cf.Entries.length + (strTabOf cf.Entries).length) % 16 := by
    rw [alignedPosition_eval, hbodylen]
    omega
  have hWrite : LDSOCacheFileWrite cf = .ok
      (encodeHeader cf.Header
        ++ (rawsFrom (headerSize + cf.Entries.length * entrySize) 0 cf.Entries).flatMap encodeRawEntry
        ++ strTabOf cf.Entries
        ++ List.replicate (8 - (48 + 24 * cf.Entries.length + (strTabOf cf.Entries).length) % 16) 0
        ++ encodeExtensionArea cf.Extensions) := by
    simp only [LDSOCacheFileWrite, hraws, htable]
    rw [if_neg hcond, hpadn]
  set OUT := encodeHeader cf.Header
      ++ (rawsFrom (headerSize + cf.Entries.length * entrySize) 0 cf.Entries).flatMap encodeRawEntry
      ++ strTabOf cf.Entries
      ++ List.replicate (8 - (48 + 24 * cf.Entries.length + (strTabOf cf.Entries).length) % 16) 0
      ++ encodeExtensionArea cf.Extensions with hOUT
  have hNN : (parseHeader (encodeHeader cf.Header)).NumLibs = cf.Entries.length := by
    rw [parseHeader_encode_NumLibs, Nat.mod_eq_of_lt hNb, hN]
  have hSS : (parseHeader (encodeHeader cf.Header)).StrTableSize = (strTabOf cf.Entries).length := by
    rw [parseHeader_encode_StrTableSize, Nat.mod_eq_of_lt hTb, hT]
  have houtshape1 : OUT = encodeHeader cf.Header
      ++ ((rawsFrom (headerSize + cf.Entries.length * entrySize) 0 cf.Entries).flatMap encodeRawEntry
        ++ (strTabOf cf.Entries
          ++ (List.replicate (8 - (48 + 24 * cf.Entries.length + (strTabOf cf.Entries).length) % 16) 0
            ++ encodeExtensionArea cf.Extensions))) := by
    rw [hOUT]
    simp [List.append_assoc]
  have houtshape2 : OUT = (encodeHeader cf.Header
      ++ (rawsFrom (headerSize + cf.Entries.length * entrySize) 0 cf.Entries).flatMap encodeRawEntry)
      ++ (strTabOf cf.Entries
        ++ (List.replicate (8 - (48 + 24 * cf.Entries.length + (strTabOf cf.Entries).length) % 16) 0
          ++ encodeExtensionArea cf.Extensions)) := by
    rw [hOUT]
    simp [List.append_assoc]
  have houtlen : OUT.length = 48 + 24 * cf.Entries.length + (strTabOf cf.Entries).length
      + (8 - (48 + 24 * cf.Entries.length + (strTabOf cf.Entries).length) % 16)
      + (encodeExtensionArea cf.Extensions).length := by
    rw [hOUT]
    simp only [List.length_append, List.length_replicate, encodeHeader_length,
      flatMap_encodeRawEntry_length, hrawslen]
  have hprelen : (encodeHeader cf.Header
      ++ (rawsFrom (headerSize + cf.Entries.length * entrySize) 0 cf.Entries).flatMap encodeRawEntry).length
      = 48 + 24 * cf.Entries.length := by
    simp only [List.length_append, encodeHeader_length, flatMap_encodeRawEntry_length, hrawslen]
  have h1 : binRead OUT 0 headerSize = .ok (encodeHeader cf.Header) := by
    unfold binRead
    rw [if_neg (by simp [headerSize]), if_neg (by omega),
      if_pos (by simp only [headerSize]; omega), List.drop_zero, houtshape1,
      show headerSize = (encodeHeader cf.Header).length from (encodeHeader_length _).symm,
      List.take_left]
  have h2 : readRawLibs OUT headerSize (parseHeader (encodeHeader cf.Header)).NumLibs
      = .ok ((rawsFrom (headerSize + cf.Entries.length * entrySize) 0 cf.Entries).map reduceRaw) := by
    have hreg := readRawLibs_region
      (rawsFrom (headerSize + cf.Entries.length * entrySize) 0 cf.Entries)
      (encodeHeader cf.Header)
      (strTabOf cf.Entries
        ++ (List.replicate (8 - (48 + 24 * cf.Entries.length + (strTabOf cf.Entries).length) % 16) 0
          ++ encodeExtensionArea cf.Extensions))
    rw [encodeHeader_length, hrawslen, ← houtshape1] at hreg
    rw [hNN, show headerSize = 48 from rfl]
    exact hreg
  have hTzero : cf.Entries = [] → (strTabOf cf.Entries).length = 0 ∧ cf.Entries.length = 0 := by
    intro hes
    rw [hes]
    exact ⟨rfl, rfl⟩
  have hTposlt : 48 + 24 * cf.Entries.length < OUT.length := by
    by_cases hes : cf.Entries = []
    · obtain ⟨e1, e2⟩ := hTzero hes
      omega
    · have hne : 0 < (strTabOf cf.Entries).length := by
        rcases hces : cf.Entries with _ | ⟨e, rest⟩
        · exact absurd hces hes
        · simp [strTabOf]
      omega
  have hpos48 : headerSize + entrySize * cf.Entries.length = 48 + 24 * cf.Entries.length := by
    simp [headerSize, entrySize]
  have h3 : readerRead OUT (headerSize + entrySize * (parseHeader (encodeHeader cf.Header)).NumLibs)
      (parseHeader (encodeHeader cf.Header)).StrTableSize
      = .ok (strTabOf cf.Entries, (strTabOf cf.Entries).length) := by
    rw [hNN, hSS, hpos48]
    unfold readerRead
    rw [if_neg (by omega)]
    have hmin : min ((strTabOf cf.Entries).length) (OUT.length - (48 + 24 * cf.Entries.length))
        = (strTabOf cf.Entries).length := by
      omega
    simp only [hmin]
    have hdrop : (OUT.drop (48 + 24 * cf.Entries.length)).take ((strTabOf cf.Entries).length)
        = strTabOf cf.Entries := by
      rw [houtshape2, List.drop_left' hprelen, List.take_left]
    rw [hdrop]
    simp
  have h4 : resolveEntries (strTabOf cf.Entries)
      (headerSize + entrySize * (parseHeader (encodeHeader cf.Header)).NumLibs)
      ((rawsFrom (headerSize + cf.Entries.length * entrySize) 0 cf.Entries).map reduceRaw)
      = .ok cf.Entries := by
    rw [hNN, ← hmul]
    exact resolve_aux _ _ cf.Entries [] (by simp) (by omega) hnul hfields
  have hLoad := LoadCacheFile_assemble OUT (encodeHeader cf.Header)
    ((rawsFrom (headerSize + cf.Entries.length * entrySize) 0 cf.Entries).map reduceRaw)
    (strTabOf cf.Entries, (strTabOf cf.Entries).length) cf.Entries h1 h2 h3 h4
  refine ⟨OUT, _, hWrite, hLoad, ?_, ?_, rfl⟩
  · simp only [hNN, hN]
  · simp only [hSS, hT]

end Ldsocache

namespace Ldsocache

/-- Counterexample for C1 as universally stated: a model with no
duplicate names (it has none at all) whose header claims one library;
encode produces bytes, but decoding them fails outright, so the round
trip reproduces nothing. -/
theorem encode_decode_roundtrip_counterexample :
    LDSOCacheFileWrite c1cf = .ok (List.replicate 20 0 ++ [1, 0, 0, 0] ++ List.replicate 32 0)
    ∧ LoadCacheFile (List.replicate 20 0 ++ [1, 0, 0, 0] ++ List.replicate 32 0)
        = .error .unexpectedEOF := by
  refine ⟨by decide, by decide⟩

/-- Witness for C1's amended theorem at a concrete one-entry model. -/
theorem encode_decode_roundtrip_witness :
    ∃ out file, LDSOCacheFileWrite testCF = .ok out ∧ LoadCacheFile out = .ok file
      ∧ file.Header.NumLibs = testCF.Header.NumLibs
      ∧ file.Header.StrTableSize = testCF.Header.StrTableSize
      ∧ file.Entries = testCF.Entries :=
  encode_decode_roundtrip testCF (by decide) (by decide) (by decide) (by decide)
    (by decide) (by decide) (by decide)

end Ldsocache
